import Mathlib

/-!
Verification of the tag-based package classification and query engine of the
dotfiles repository (lib/tagged_package_filter.py) and of the best-candidate
selection logic (bin/package_analysis.py), as a shallow embedding in Lean.
Strings are modelled through their underlying character lists; Python dicts
of package records are modelled as association lists that preserve insertion
order; Python truthiness of optional string fields is modelled by comparison
with the empty string.
-/

namespace Dotfiles

/-! ## String helpers -/

/-- Splits a character list at the first colon, returning the parts before and
after it, or none when no colon occurs.  Models the combination of the Python
tests and calls in Tag.parse: colon containment check plus split with count 1. -/
def splitOnceColon : List Char → Option (List Char × List Char)
  | [] => none
  | c :: cs =>
    if c = ':' then some ([], cs)
    else
      match splitOnceColon cs with
      | none => none
      | some (pre, post) => some (c :: pre, post)

/-- Splits a character list on every colon, one group per segment; models the
Python value.split with a colon argument.  The empty list yields one empty
group, as in Python. -/
def splitCols : List Char → List (List Char)
  | [] => [[]]
  | c :: cs =>
    if c = ':' then [] :: splitCols cs
    else
      match splitCols cs with
      | [] => [[c]]
      | g :: gs => (c :: g) :: gs

/-- Lowercases a string character by character; the inputs under study are
ASCII, where the Python lower method and the character lowercase map agree. -/
def lowerStr (s : String) : String := String.mk (s.data.map Char.toLower)

/-- Joins segment lists with colons; the inverse of splitCols, used only in
proofs. -/
def joinCols : List (List Char) → List Char
  | [] => []
  | [g] => g
  | g :: gs => g ++ ':' :: joinCols gs

/-! ## Tag (lib/tagged_package_filter.py, class Tag) -/

/-- Represents a parsed tag with namespace and value, as the Python dataclass
Tag.  The namespace field is called ns because namespace is a reserved word in
Lean. -/
structure Tag where
  ns : Option String
  value : String
deriving DecidableEq, Repr

/-- Parses a tag string into namespace and value by splitting on the first
colon; with no colon the namespace is none.  Embeds Tag.parse. -/
def Tag.parse (tagString : String) : Tag :=
  match splitOnceColon tagString.data with
  | some (pre, post) => ⟨some (String.mk pre), String.mk post⟩
  | none => ⟨none, tagString⟩

/-- String form of a tag.  Embeds the Python dunder str method: a truthy
namespace (neither None nor empty) is prepended with a colon. -/
def Tag.toStr (t : Tag) : String :=
  match t.ns with
  | some n => if n ≠ "" then n ++ ":" ++ t.value else t.value
  | none => t.value

/-- Checks whether this tag matches another tag: exact pair equality, or the
hierarchical rule restricted to the pm namespace, where the colon-split
segments of one value must be a strict-length prefix of the other's segments.
Embeds Tag.matches. -/
def Tag.matches (a b : Tag) : Bool :=
  if a.ns = b.ns ∧ a.value = b.value then true
  else if a.ns = some "pm" ∧ b.ns = some "pm" then
    if (splitCols a.value.data).length < (splitCols b.value.data).length then
      decide ((splitCols b.value.data).take (splitCols a.value.data).length
        = splitCols a.value.data)
    else if (splitCols b.value.data).length < (splitCols a.value.data).length then
      decide ((splitCols a.value.data).take (splitCols b.value.data).length
        = splitCols b.value.data)
    else false
  else false

/-! ## TagExpression (lib/tagged_package_filter.py, class TagExpression) -/

/-- Whitespace per the Python regex character class backslash-s, ASCII range. -/
def pyIsSpace (c : Char) : Bool :=
  c = ' ' || c = '\t' || c = '\n' || c = '\r' || c = '\x0b' || c = '\x0c'

/-- A character that ends a bare tag token in the tokenizer regex: an opening
or closing parenthesis or whitespace. -/
def isDelim (c : Char) : Bool :=
  c = '(' || c = ')' || pyIsSpace c

/-- Tokenizer worker.  Mirrors the findall scan of the regex alternation in
TagExpression, tried in order: parentheses, the literal operators AND, OR and
NOT, then a maximal run of non-delimiter characters; whitespace separates
tokens.  The fuel argument only bounds recursion depth; every step consumes at
least one character, so an initial fuel of length plus one is never
exhausted. -/
def tokenizeAux : Nat → List Char → List String
  | 0, _ => []
  | _, [] => []
  | fuel + 1, '(' :: rest => "(" :: tokenizeAux fuel rest
  | fuel + 1, ')' :: rest => ")" :: tokenizeAux fuel rest
  | fuel + 1, 'A' :: 'N' :: 'D' :: rest => "AND" :: tokenizeAux fuel rest
  | fuel + 1, 'O' :: 'R' :: rest => "OR" :: tokenizeAux fuel rest
  | fuel + 1, 'N' :: 'O' :: 'T' :: rest => "NOT" :: tokenizeAux fuel rest
  | fuel + 1, c :: rest =>
    if pyIsSpace c then tokenizeAux fuel rest
    else
      String.mk (c :: rest.takeWhile (fun d => !(isDelim d)))
        :: tokenizeAux fuel (rest.dropWhile (fun d => !(isDelim d)))

/-- Tokenizes an expression string, as the private tokenize method. -/
def tokenize (expression : String) : List String :=
  tokenizeAux (expression.data.length + 1) expression.data

/-- The five strings the evaluator treats as structural tokens. -/
def opTokens : List String := ["AND", "OR", "NOT", "(", ")"]

/-- Finds the first opening parenthesis and its matching closing parenthesis,
returning the tokens before it, the tokens strictly inside the pair, and the
tokens after it.  Returns none both when no opening parenthesis occurs and
when one occurs without a matching close, matching the fall-through of the
Python scan when its end index stays below the start index.  The depth
counter counts parentheses opened after the first one. -/
def takeAtCloseAux : List String → Nat → Option (List String × List String)
  | [], _ => none
  | t :: ts, d =>
    if t = ")" then
      if d = 0 then some ([], ts)
      else
        match takeAtCloseAux ts (d - 1) with
        | none => none
        | some (inner, rest) => some (t :: inner, rest)
    else if t = "(" then
      match takeAtCloseAux ts (d + 1) with
      | none => none
      | some (inner, rest) => some (t :: inner, rest)
    else
      match takeAtCloseAux ts d with
      | none => none
      | some (inner, rest) => some (t :: inner, rest)

/-- See takeAtCloseAux: locates the first balanced parenthesized group. -/
def splitParen : List String → Option (List String × List String × List String)
  | [] => none
  | t :: ts =>
    if t = "(" then
      match takeAtCloseAux ts 0 with
      | none => none
      | some (inner, rest) => some ([], inner, rest)
    else
      match splitParen ts with
      | none => none
      | some (pre, inner, post) => some (t :: pre, inner, post)

/-- Splits a token list at the first occurrence of the given token, as the
Python code does by taking the first index in the operator index list. -/
def splitFirstTok (op : String) : List String → Option (List String × List String)
  | [] => none
  | t :: ts =>
    if t = op then some ([], ts)
    else
      match splitFirstTok op ts with
      | none => none
      | some (l, r) => some (t :: l, r)

/-- String form of a Python boolean, as produced by str applied to a bool. -/
def pyBoolStr (b : Bool) : String := if b then "True" else "False"

/-- Recursive evaluation of a tokenized expression, embedding the private
evaluate-tokens method.  Branch order follows the source: empty token list,
single non-operator token, first balanced parenthesized group substituted by
its boolean's string form, leading NOT, split at the first OR, split at the
first AND, then the single-token special cases, and finally the false
fallback for leftover tokens.  The fuel argument only bounds recursion depth;
every recursive call is on a strictly shorter token list, so an initial fuel
of length plus one is never exhausted. -/
def evalTokensAux (tags : List Tag) : Nat → List String → Bool
  | 0, _ => false
  | _, [] => true
  | fuel + 1, t0 :: rest =>
    if rest = [] ∧ t0 ∉ opTokens then
      tags.any (fun tag => tag.matches (Tag.parse t0))
    else
      match splitParen (t0 :: rest) with
      | some (pre, inner, post) =>
        evalTokensAux tags fuel
          (pre ++ [pyBoolStr (evalTokensAux tags fuel inner)] ++ post)
      | none =>
        if t0 = "NOT" then
          if rest ≠ [] then !(evalTokensAux tags fuel rest) else true
        else
          match splitFirstTok "OR" (t0 :: rest) with
          | some (l, r) =>
            evalTokensAux tags fuel l || evalTokensAux tags fuel r
          | none =>
            match splitFirstTok "AND" (t0 :: rest) with
            | some (l, r) =>
              evalTokensAux tags fuel l && evalTokensAux tags fuel r
            | none =>
              if rest = [] then
                if t0 = "True" then true
                else if t0 = "False" then false
                else tags.any (fun tag => tag.matches (Tag.parse t0))
              else false

/-- Evaluation of a token list against parsed tags, with sufficient fuel. -/
def evaluateTokens (tokens : List String) (tags : List Tag) : Bool :=
  evalTokensAux tags (tokens.length + 1) tokens

/-- Evaluate the expression against a list of tag strings, embedding
TagExpression.evaluate: the tag strings are parsed once and the stored token
list of the expression is evaluated. -/
def TagExpression.evaluate (expression : String) (tags : List String) : Bool :=
  evaluateTokens (tokenize expression) (tags.map Tag.parse)

/-! ## Package records and the tagged filter
(lib/tagged_package_filter.py, class TaggedPackageFilter and the module-level
migration function) -/

/-- A package record.  The Python code reads records as dictionaries through
get with a default; each field here carries that default.  The tags field
distinguishes an absent key (none) from a present list, because the migration
function tests key presence while tag generation tests emptiness.  String
fields model truthiness by comparison with the empty string.  The
custom-install field holds a command map in the source; only its truthiness
is ever read by the code under study, so it is modelled as a Boolean. -/
structure Entry where
  tags : Option (List String) := none
  archPkg : String := ""
  aptPkg : String := ""
  fedoraPkg : String := ""
  flatpakPkg : String := ""
  brewSupportsDarwin : Bool := false
  brewSupportsLinux : Bool := false
  brewIsCask : Bool := false
  archIsAur : Bool := false
  customInstall : Bool := false
  preferFlatpak : Bool := false
  priority : String := ""
  customInstallPriority : String := ""
deriving DecidableEq, Repr

/-- Removes duplicates while preserving first-seen order, as the seen-set
loops at the end of the legacy tag generator and of the migration function. -/
def dedupPreserve (tags : List String) : List String :=
  tags.foldl (fun acc t => if t ∈ acc then acc else acc ++ [t]) []

/-- Generates tags from legacy platform fields, embedding the private
generate-legacy-tags method: only the four per-distribution package-name
fields and the two homebrew support flags contribute, each homebrew flag
contributing the general homebrew tag alongside its platform-qualified tag. -/
def generateLegacyTags (entry : Entry) : List String :=
  let tags :=
    (if entry.archPkg ≠ "" then ["os:linux", "dist:arch", "pm:pacman"] else []) ++
    (if entry.aptPkg ≠ "" then ["os:linux", "dist:debian", "dist:ubuntu", "pm:apt"] else []) ++
    (if entry.fedoraPkg ≠ "" then ["os:linux", "dist:fedora", "pm:dnf"] else []) ++
    (if entry.flatpakPkg ≠ "" then ["os:linux", "pm:flatpak"] else []) ++
    (if entry.brewSupportsDarwin then ["os:macos", "pm:homebrew", "pm:homebrew:darwin"] else []) ++
    (if entry.brewSupportsLinux then ["os:linux", "pm:homebrew", "pm:homebrew:linux"] else [])
  dedupPreserve tags

/-- All tags for a package: the stored tags when non-empty, otherwise the
legacy-generated ones.  Embeds get-package-tags; the package-name parameter
of the method is unused by the source and omitted here. -/
def getPackageTags (entry : Entry) : List String :=
  let tags := entry.tags.getD []
  if tags = [] then generateLegacyTags entry else tags

/-- The filter object: the full record map as an insertion-ordered
association list, and the platform tag list the constructor derives from the
platform detector.  Platform detection probes the host and is out of the
embedded core, so the derived platform tags are taken as a field. -/
structure TaggedPackageFilter where
  tomlData : List (String × Entry)
  platformTags : List String

/-- Filters packages by a tag query, embedding filter-by-tags: the query is
evaluated against every record's generated tag list and the matching entries
are kept in order. -/
def TaggedPackageFilter.filterByTags (f : TaggedPackageFilter) (query : String) :
    List (String × Entry) :=
  f.tomlData.filter (fun p => TagExpression.evaluate query (getPackageTags p.2))

/-- Filters packages compatible with the current platform, embedding
filter-by-current-platform: a record is kept when some of its parsed tags
matches some platform tag starting with the os prefix, and some of its
parsed tags matches some platform tag starting with the pm prefix. -/
def TaggedPackageFilter.filterByCurrentPlatform (f : TaggedPackageFilter) :
    List (String × Entry) :=
  f.tomlData.filter (fun p =>
    let pkgTagObjects := (getPackageTags p.2).map Tag.parse
    let hasCompatibleOS := f.platformTags.any (fun pt =>
      "os:".data.isPrefixOf pt.data &&
        pkgTagObjects.any (fun t => t.matches (Tag.parse pt)))
    let hasCompatiblePM := f.platformTags.any (fun pt =>
      "pm:".data.isPrefixOf pt.data &&
        pkgTagObjects.any (fun t => t.matches (Tag.parse pt)))
    hasCompatibleOS && hasCompatiblePM)

/-- Migrates a package entry from legacy format to tagged format, embedding
the module-level migration function: entries that already carry a tags key
are returned unchanged; otherwise the full legacy table is applied, with the
two platform-qualified homebrew tags collapsed into the general homebrew tag
when both homebrew flags hold, the duplicates removed preserving first-seen
order, and the result stored in the tags field. -/
def migratePackageToTags (entry : Entry) : Entry :=
  if entry.tags.isSome then entry
  else
    let tags :=
      (if entry.archPkg ≠ "" then
        ["os:linux", "dist:arch", "pm:pacman"] ++
          (if entry.archIsAur then ["cat:aur"] else [])
       else []) ++
      (if entry.aptPkg ≠ "" then ["os:linux", "dist:debian", "dist:ubuntu", "pm:apt"] else []) ++
      (if entry.fedoraPkg ≠ "" then ["os:linux", "dist:fedora", "pm:dnf"] else []) ++
      (if entry.flatpakPkg ≠ "" then
        ["os:linux", "pm:flatpak"] ++
          (if entry.preferFlatpak then ["priority:flatpak"] else [])
       else []) ++
      (let brewTags :=
        (if entry.brewSupportsDarwin then ["os:macos", "pm:homebrew:darwin"] else []) ++
        (if entry.brewSupportsLinux then ["os:linux", "pm:homebrew:linux"] else [])
       if entry.brewSupportsDarwin ∧ entry.brewSupportsLinux then
         ["os:macos", "os:linux", "pm:homebrew"]
       else brewTags) ++
      (if entry.brewIsCask then ["cat:cask"] else []) ++
      (if entry.customInstall then ["pm:custom"] else []) ++
      (if lowerStr entry.priority = "override" then ["priority:essential"]
       else if lowerStr entry.priority = "flatpak" then ["priority:flatpak"] else []) ++
      (if lowerStr entry.customInstallPriority = "always" then ["priority:custom-always"]
       else if lowerStr entry.customInstallPriority = "fallback" then ["priority:custom-fallback"]
       else [])
    { entry with tags := some (dedupPreserve tags) }

/-- The spec's legacy-field table for tag synthesis, written from the spec's
words in section 4.3 (the claim's table): each row contributes its tags when
its legacy field is present, the homebrew rows emitting only the
platform-qualified homebrew tags, collapsed into the single general homebrew
tag plus both os tags when both homebrew flags are true; cask and custom
install contribute their rows.  The caller deduplicates preserving first-seen
order. -/
def specTableTags (e : Entry) : List String :=
  (if e.archPkg ≠ "" then ["os:linux", "dist:arch", "pm:pacman"] else []) ++
  (if e.aptPkg ≠ "" then ["os:linux", "dist:debian", "dist:ubuntu", "pm:apt"] else []) ++
  (if e.fedoraPkg ≠ "" then ["os:linux", "dist:fedora", "pm:dnf"] else []) ++
  (if e.flatpakPkg ≠ "" then ["os:linux", "pm:flatpak"] else []) ++
  (if e.brewSupportsDarwin ∧ e.brewSupportsLinux then ["os:macos", "os:linux", "pm:homebrew"]
   else if e.brewSupportsDarwin then ["os:macos", "pm:homebrew:darwin"]
   else if e.brewSupportsLinux then ["os:linux", "pm:homebrew:linux"]
   else []) ++
  (if e.brewIsCask then ["cat:cask"] else []) ++
  (if e.customInstall then ["pm:custom"] else [])

/-! ## Best-candidate selection (bin/package_analysis.py, RepologyClient) -/

/-- Replaces every occurrence of a non-empty pattern, scanning left to right
without overlap, as the Python replace method.  The fuel argument only bounds
recursion depth; every step consumes at least one character, so an initial
fuel of length plus one is never exhausted. -/
def replaceAllAux (pat repl : List Char) : Nat → List Char → List Char
  | 0, l => l
  | _, [] => []
  | fuel + 1, c :: cs =>
    if pat ≠ [] ∧ pat.isPrefixOf (c :: cs) then
      repl ++ replaceAllAux pat repl fuel ((c :: cs).drop pat.length)
    else
      c :: replaceAllAux pat repl fuel cs

/-- String-level wrapper for replaceAllAux. -/
def replaceAll (s pat repl : String) : String :=
  String.mk (replaceAllAux pat.data repl.data (s.data.length + 1) s.data)

/-- Contiguous-substring containment on character lists: the first list occurs
at some position of the second.  The empty list occurs everywhere. -/
def listIsSubstr (sub : List Char) : List Char → Bool
  | [] => sub.isEmpty
  | c :: cs => sub.isPrefixOf (c :: cs) || listIsSubstr sub cs

/-- Substring containment, modelling the Python in operator on strings. -/
def strIn (sub s : String) : Bool := listIsSubstr sub.data s.data

/-- Suffix test, modelling the Python endswith method. -/
def strEndsWith (s suf : String) : Bool := suf.data.isSuffixOf s.data

/-- Splits a character list on every dot, as the version-group split. -/
def splitOnDot : List Char → List (List Char)
  | [] => [[]]
  | c :: cs =>
    if c = '.' then [] :: splitOnDot cs
    else
      match splitOnDot cs with
      | [] => [[c]]
      | g :: gs => (c :: g) :: gs

/-- Whether a character list fully matches the version-number part of the
patterns in the source, digits with dot-separated digit groups: one or more
digits, then any number of groups of a dot followed by one or more digits. -/
def isVersionChunk (l : List Char) : Bool :=
  (splitOnDot l).all (fun g => !g.isEmpty && g.all Char.isDigit)
    && !l.isEmpty

/-- Whether the regex search for a trailing hyphen-version succeeds on the
string: some hyphen is followed by characters forming a version chunk that
reaches the end of the string. -/
def hasDashVersionSuffix : List Char → Bool
  | [] => false
  | c :: cs => (c = '-' && isVersionChunk cs) || hasDashVersionSuffix cs

/-- Locates the split of the non-greedy leading group in the anchored pattern
base-hyphen-version: the shortest non-empty prefix followed by a hyphen whose
remainder is exactly a version chunk, scanning left to right as regex
backtracking does. -/
def findDashSplit : List Char → List Char → Option (List Char × List Char)
  | _, [] => none
  | base, c :: cs =>
    if c = '-' && !base.isEmpty && isVersionChunk cs then some (base, cs)
    else findDashSplit (base ++ [c]) cs

/-- Digit groups of a version chunk as numbers, as the int conversion of each
dot-separated part. -/
def versionNums (l : List Char) : List Nat :=
  (splitOnDot l).map (fun g => g.foldl (fun acc c => acc * 10 + (c.toNat - 48)) 0)

/-- Parses a version from a package name, embedding the private parse-version
method: first the anchored pattern of a non-greedy base, a hyphen and a
trailing version; then the anchored pattern of letters followed directly by a
version; otherwise the whole name with an empty version tuple. -/
def parseVersion (packageName : String) : String × List Nat :=
  match findDashSplit [] packageName.data with
  | some (base, vs) => (String.mk base, versionNums vs)
  | none =>
    let letters := packageName.data.takeWhile Char.isAlpha
    let rest := packageName.data.dropWhile Char.isAlpha
    if !letters.isEmpty && isVersionChunk rest then (String.mk letters, versionNums rest)
    else (packageName, [])

/-- The unwanted suffixes penalized by the name scorer. -/
def badSuffixes : List String :=
  ["-git", "-svn", "-bin", "-stable", "-latest", "-nightly", "-dev", "-devel", "-doc", "-docs"]

/-- The architecture-qualified name patterns penalized by the name scorer. -/
def archPatterns : List String :=
  ["-m2", "-arm64", "-x86_64", "-i386", "-amd64", "avr-", "mingw-", "-arm-", "-none-eabi"]

/-- Characters of a string before the first at sign, modelling the first
element of the Python split on the at sign. -/
def takeUntilAt (s : String) : String := String.mk (s.data.takeWhile (fun c => c ≠ '@'))

/-- Scores a package name candidate against the target, embedding the private
score-package-name method: exact-match and cleaned-match bonuses, substring
bonus, versioned-target base-name bonus, short-name bonus, penalties for
unwanted suffixes, trailing version numbers and architecture patterns, and
the repository adjustment for AUR versus official Arch repositories. -/
def scorePackageName (targetName candidateName repo : String) : Int :=
  if candidateName = "" then 0
  else
    let candidateLower := lowerStr candidateName
    let targetLower := lowerStr targetName
    let score : Int := 0
    let score := if candidateLower = targetLower then score + 5000 else score
    let candidateClean :=
      replaceAll (replaceAll (replaceAll candidateLower "lib" "") "-dev" "") "-devel" ""
    let targetClean :=
      replaceAll (replaceAll (replaceAll targetLower "lib" "") "-dev" "") "-devel" ""
    let score := if candidateClean = targetClean then score + 4500 else score
    let score := if strIn targetLower candidateLower then score + 500 else score
    let score :=
      if strIn "@" targetName then
        if candidateLower = lowerStr (takeUntilAt targetName) then score + 6000 else score
      else score
    let score := if candidateName.data.length ≤ targetName.data.length + 3 then score + 100 else score
    let score := badSuffixes.foldl
      (fun sc suf => if strEndsWith candidateLower suf then sc - 200 else sc) score
    let score :=
      if hasDashVersionSuffix candidateLower.data && !hasDashVersionSuffix targetLower.data then
        score - 250
      else score
    let score := archPatterns.foldl
      (fun sc pat => if strIn pat candidateLower && !(strIn pat targetLower) then sc - 300 else sc)
      score
    let score :=
      if strIn "aur" repo then score - 50
      else if strIn "arch" repo && !(strIn "aur" repo) then score + 50
      else score
    score

/-- Scores a repository by currency and quality, embedding the private
score-repository method's chain of substring tests. -/
def scoreRepository (repo : String) : Int :=
  let r := lowerStr repo
  if strIn "debian" r then
    if strIn "unstable" r then 100
    else if strIn "testing" r then 80
    else if strIn "experimental" r then 60
    else if strIn "debian_13" r || strIn "trixie" r then 85
    else if strIn "debian_12" r || strIn "bookworm" r then 70
    else if strIn "debian_11" r || strIn "bullseye" r then 40
    else 20
  else if strIn "ubuntu" r then
    if strIn "24.04" r || strIn "24.10" r then 90
    else if strIn "22.04" r then 80
    else if strIn "20.04" r then 60
    else 30
  else if strIn "fedora" r then
    if strIn "fedora_42" r then 100
    else if strIn "fedora_41" r then 85
    else if strIn "fedora_40" r then 70
    else 40
  else if strIn "arch" r && !(strIn "aur" r) then 95
  else if strIn "aur" r then 75
  else if strIn "alpine" r then
    if strIn "edge" r then 90
    else if strIn "alpine_3_2" r then 85
    else 50
  else if strIn "almalinux" r || strIn "centos" r || strIn "rhel" r then
    if strIn "_9" r || strIn "_10" r then 75
    else if strIn "_8" r then 60
    else 30
  else 0

/-- The development-version markers of the stability test. -/
def unstablePatterns : List String :=
  ["~a", "~b", "~rc", "-alpha", "-beta", "-rc", ".dev", ".pre", "-dev", "-devel",
   "git", "svn", "snapshot"]

/-- Whether a version is stable, embedding the private is-stable-version
method: no development marker occurs in the lowercased version. -/
def isStableVersion (version : String) : Bool :=
  let v := lowerStr version
  !(unstablePatterns.any (fun p => strIn p v))

/-- Whether a package version has a known vulnerability, embedding the
private is-vulnerable-version method: the lowercased name with every
occurrence of python3 rewritten to python is looked up in the fixed table,
whose three keys all list the single version 3.11.2. -/
def isVulnerableVersion (packageName version : String) : Bool :=
  let packageLower := lowerStr packageName
  let basePackage := replaceAll packageLower "python3" "python"
  if basePackage = "python" || basePackage = "python3" || basePackage = "python311" then
    (["3.11.2"] : List String).contains version
  else false

/-- Scores a package status string, embedding the private
score-package-status method. -/
def scorePackageStatus (status : String) : Int :=
  if status = "" then 0
  else
    let s := lowerStr status
    if s = "current" then 200
    else if s = "unique" then 150
    else if s = "rolling" then 100
    else if s = "newest" then 180
    else if s = "outdated" then -100
    else if s = "legacy" then -200
    else if s = "incorrect" then -300
    else if s = "ignored" then -250
    else -25

/-- A candidate row handed to the selector: name, repository, version and
status strings, each defaulting to empty as the Python get calls do. -/
structure Candidate where
  name : String := ""
  repo : String := ""
  version : String := ""
  status : String := ""
deriving DecidableEq, Repr

/-- The scored six-tuple built for each candidate in the first phase of the
selector: total score, name, repository, version, name score and status, in
the component order the Python tuple uses for comparison. -/
structure Scored where
  total : Int
  name : String
  repo : String
  version : String
  nameScore : Int
  status : String
deriving DecidableEq, Repr

/-- Lexicographic strict order on character lists by code point, as Python
string comparison. -/
def charListLt : List Char → List Char → Bool
  | [], [] => false
  | [], _ :: _ => true
  | _ :: _, [] => false
  | a :: as, b :: bs => a < b || (a = b && charListLt as bs)

/-- Python string strict comparison. -/
def strLt (a b : String) : Bool := charListLt a.data b.data

/-- Python tuple comparison on the scored six-tuples: componentwise, integers
then strings, first difference decides. -/
def scoredLt (a b : Scored) : Bool :=
  a.total < b.total ||
    (a.total = b.total && (strLt a.name b.name ||
      (a.name = b.name && (strLt a.repo b.repo ||
        (a.repo = b.repo && (strLt a.version b.version ||
          (a.version = b.version && (a.nameScore < b.nameScore ||
            (a.nameScore = b.nameScore && strLt a.status b.status)))))))))

/-- Stable insertion for a descending sort: the element is placed before the
first strictly smaller element, hence after every earlier equal element. -/
def insDesc (gt : α → α → Bool) (x : α) : List α → List α
  | [] => [x]
  | y :: ys => if gt x y then x :: y :: ys else y :: insDesc gt x ys

/-- Stable descending sort by repeated insertion, modelling the Python list
sort with the reverse flag: equal elements keep their original order. -/
def stableSortDesc (gt : α → α → Bool) (l : List α) : List α :=
  l.foldl (fun acc x => insDesc gt x acc) []

/-- The ten-component row built for each version-matched candidate in the
second phase of the selector, in source order. -/
structure VCand where
  versionParts : List Nat
  name : String
  repo : String
  version : String
  nameScore : Int
  repoScore : Int
  isStable : Bool
  isVulnerable : Bool
  status : String
  statusScore : Int
deriving DecidableEq, Repr

/-- Python tuple greater-or-equal on version number tuples: lexicographic
with a shorter tuple smaller than any extension of it. -/
def verGe : List Nat → List Nat → Bool
  | _, [] => true
  | [], _ :: _ => false
  | a :: as, b :: bs => b < a || (a = b && verGe as bs)

/-- Sum of a list of numbers, used to total the unmatched version tail. -/
def sumNat : List Nat → Nat
  | [] => 0
  | a :: as => a + sumNat as

/-- Sum of componentwise absolute differences after zero-padding both version
tuples to a common length, as the distance computation in the enhanced
version score: once one tuple is exhausted the remaining components of the
other differ from the zero padding by themselves. -/
def verDistance : List Nat → List Nat → Nat
  | [], bs => sumNat bs
  | a :: as, [] => a + verDistance as []
  | a :: as, b :: bs => (max a b - min a b) + verDistance as bs

/-- Lexicographic strict order on integer lists, as Python tuple comparison
of integer tuples, a shorter tuple smaller than any extension of it. -/
def intListLt : List Int → List Int → Bool
  | [], [] => false
  | [], _ :: _ => true
  | _ :: _, [] => false
  | a :: as, b :: bs => a < b || (a = b && intListLt as bs)

/-- The comprehensive score for version selection, embedding the local
enhanced-version-score function: a vulnerable candidate gets the fixed
bottom five-tuple, otherwise negated distance first, then the preference for
versions at or above the target, the stability bonus, and the status,
repository and name scores.  Python compares these tuples lexicographically,
so they are modelled as integer lists. -/
def enhancedVersionScore (targetVersion : List Nat) (c : VCand) : List Int :=
  if c.isVulnerable then [-99999, 0, 0, 0, 0]
  else
    let distance : Int := Int.ofNat (verDistance targetVersion c.versionParts)
    let versionPreference : Int := if verGe c.versionParts targetVersion then 100 else -50
    let stabilityBonus : Int := if c.isStable then 100 else -200
    [-distance, versionPreference, stabilityBonus, c.statusScore, c.repoScore, c.nameScore]

/-- The score for unversioned selection, embedding the local
unversioned-score function: its first tuple component is itself a tuple (the
version parts, or the fixed bottom singleton for a vulnerable candidate),
followed by the stability bonus and the status, repository and name scores. -/
def unversionedScore (c : VCand) : List Int × List Int :=
  if c.isVulnerable then ([-99999], [0, 0, 0, 0])
  else
    let stabilityBonus : Int := if c.isStable then 100 else -200
    (c.versionParts.map Int.ofNat, [stabilityBonus, c.statusScore, c.repoScore, c.nameScore])

/-- Python comparison of the unversioned score pairs: the leading version
tuples first, then the remaining integers. -/
def uPairLt (a b : List Int × List Int) : Bool :=
  intListLt a.1 b.1 || (a.1 = b.1 && intListLt a.2 b.2)

/-- Selects the best package name from a list of candidates, embedding the
private select-best-package-name method: score every candidate, sort the
six-tuples descending, accept immediately on a name score of at least 500;
otherwise collect the candidates whose parsed base name matches the target or
its parsed base (or whose whole name matches the base), with the base-name
bonuses; for a version-qualified target sort them by the enhanced version
score and return the first of the top-scoring run not ending in -git (or the
first of that run); for an unqualified target do the same with the
unversioned score, scanning all candidates of the top score; with no
version-matched candidates fall back to the top-scored name. -/
def selectBestPackageName (targetName : String) (candidates : List Candidate) :
    Option String :=
  if candidates.isEmpty then none
  else
    let scored := candidates.map (fun c =>
      let nameScore := scorePackageName targetName c.name c.repo
      let repoScore := scoreRepository c.repo
      let stabilityScore : Int := if isStableVersion c.version then 50 else -100
      let securityScore : Int := if isVulnerableVersion c.name c.version then -500 else 0
      let statusScore := scorePackageStatus c.status
      { total := nameScore + repoScore + stabilityScore + securityScore + statusScore,
        name := c.name, repo := c.repo, version := c.version,
        nameScore := nameScore, status := c.status : Scored })
    let sortedScored := stableSortDesc (fun a b => scoredLt b a) scored
    match sortedScored with
    | [] => none
    | best :: _ =>
      if best.nameScore ≥ 500 then some best.name
      else
        let targetParsed := parseVersion targetName
        let targetBase := targetParsed.1
        let targetVersion := targetParsed.2
        let versionedCandidates := sortedScored.filterMap (fun s =>
          let parsed := parseVersion s.name
          let baseName := parsed.1
          let versionParts := parsed.2
          if (!versionParts.isEmpty &&
                (lowerStr baseName = lowerStr targetName ||
                 lowerStr baseName = lowerStr targetBase))
              || lowerStr s.name = lowerStr targetBase then
            let baseNameBonus : Int :=
              if lowerStr baseName = lowerStr targetBase then
                4000 + (if lowerStr s.name = lowerStr targetBase then 2000 else 0)
              else 0
            some { versionParts := versionParts, name := s.name, repo := s.repo,
                   version := s.version, nameScore := s.nameScore + baseNameBonus,
                   repoScore := scoreRepository s.repo,
                   isStable := isStableVersion s.version,
                   isVulnerable := isVulnerableVersion s.name s.version,
                   status := s.status, statusScore := scorePackageStatus s.status : VCand }
          else none)
        if versionedCandidates.isEmpty then some best.name
        else if !targetVersion.isEmpty then
          let sorted2 := stableSortDesc
            (fun a b =>
              intListLt (enhancedVersionScore targetVersion b)
                (enhancedVersionScore targetVersion a))
            versionedCandidates
          match sorted2 with
          | [] => some best.name
          | top :: _ =>
            let bestScore := enhancedVersionScore targetVersion top
            let bestCandidates := sorted2.takeWhile
              (fun c => enhancedVersionScore targetVersion c = bestScore)
            match bestCandidates.find? (fun c => !(strEndsWith c.name "-git")) with
            | some c => some c.name
            | none =>
              match bestCandidates with
              | c :: _ => some c.name
              | [] => some top.name
        else
          let sorted2 := stableSortDesc
            (fun a b => uPairLt (unversionedScore b) (unversionedScore a))
            versionedCandidates
          match sorted2 with
          | [] => some best.name
          | top :: _ =>
            let latestScore := unversionedScore top
            match (sorted2.filter (fun c => unversionedScore c = latestScore)).find?
                (fun c => !(strEndsWith c.name "-git")) with
            | some c => some c.name
            | none => some top.name

/-! ## Auxiliary definitions for the theorems -/

/-- A tag string is well formed when it has no colon at all or a non-empty
namespace before its first colon; the spec's round-trip property is stated
for these strings. -/
def wellFormedTagString (s : String) : Bool :=
  match splitOnceColon s.data with
  | none => true
  | some (pre, _) => !pre.isEmpty

/-- A record with explicit tags, used as a concrete instance. -/
def gitEntry : Entry := { tags := some ["cat:development", "os:macos"] }

/-- A second record with explicit tags, used as a concrete instance. -/
def firefoxEntry : Entry := { tags := some ["cat:browser", "os:macos"] }

/-- A concrete filter over the two records above with macOS platform tags. -/
def demoFilter : TaggedPackageFilter :=
  { tomlData := [("git", gitEntry), ("firefox", firefoxEntry)],
    platformTags := ["os:macos", "arch:x86_64", "pm:homebrew", "pm:homebrew:darwin"] }

/-! ## Helper lemmas -/

theorem splitCols_ne_nil (l : List Char) : splitCols l ≠ [] := by
  cases l with
  | nil => simp [splitCols]
  | cons c cs =>
    by_cases hc : c = ':'
    · simp [splitCols, hc]
    · cases h : splitCols cs with
      | nil => simp [splitCols, hc, h]
      | cons g gs => simp [splitCols, hc, h]

theorem joinCols_splitCols (l : List Char) : joinCols (splitCols l) = l := by
  induction l with
  | nil => rfl
  | cons c cs ih =>
    by_cases hc : c = ':'
    · subst hc
      cases h : splitCols cs with
      | nil => exact absurd h (splitCols_ne_nil cs)
      | cons g gs =>
        rw [h] at ih
        simp [splitCols, joinCols, h, ih]
    · cases h : splitCols cs with
      | nil => exact absurd h (splitCols_ne_nil cs)
      | cons g gs =>
        rw [h] at ih
        cases gs with
        | nil =>
          simp [splitCols, hc, h, joinCols]
          simpa [joinCols] using ih
        | cons g2 gs2 =>
          simp [joinCols] at ih
          simp [splitCols, hc, h, joinCols, ih]

theorem splitCols_inj {l₁ l₂ : List Char} (h : splitCols l₁ = splitCols l₂) : l₁ = l₂ := by
  have h1 := joinCols_splitCols l₁
  rw [h, joinCols_splitCols] at h1
  exact h1.symm

theorem splitOnceColon_eq {l pre post : List Char}
    (h : splitOnceColon l = some (pre, post)) : l = pre ++ ':' :: post := by
  induction l generalizing pre post with
  | nil => simp [splitOnceColon] at h
  | cons c cs ih =>
    by_cases hc : c = ':'
    · subst hc
      simp [splitOnceColon] at h
      simp [← h.1, ← h.2]
    · cases hsplit : splitOnceColon cs with
      | none => simp [splitOnceColon, hc, hsplit] at h
      | some pq =>
        obtain ⟨p, q⟩ := pq
        simp [splitOnceColon, hc, hsplit] at h
        rw [← h.1, ← h.2]
        simp [ih hsplit]

theorem splitFirstTok_eq_none {op : String} {toks : List String} (h : op ∉ toks) :
    splitFirstTok op toks = none := by
  induction toks with
  | nil => rfl
  | cons t ts ih =>
    have ht : ¬(t = op) := by rintro rfl; exact h (List.mem_cons_self _ _)
    have h2 : op ∉ ts := fun hm => h (List.mem_cons_of_mem _ hm)
    simp [splitFirstTok, ht, ih h2]

theorem splitParen_eq_none {toks : List String} (h : "(" ∉ toks) :
    splitParen toks = none := by
  induction toks with
  | nil => rfl
  | cons t ts ih =>
    have ht : ¬(t = "(") := by rintro rfl; exact h (List.mem_cons_self _ _)
    have h2 : "(" ∉ ts := fun hm => h (List.mem_cons_of_mem _ hm)
    simp [splitParen, ht, ih h2]

/-! ## Claim theorems -/

/-- Claim C10: evaluating a tag expression whose tokenization is empty — as
for the empty string or a whitespace-only query — returns true for every tag
list, and filtering by the empty query returns the entire record map
unchanged. -/
theorem empty_query_true_and_filter_identity :
    (∀ tags : List Tag, evaluateTokens [] tags = true)
    ∧ tokenize "" = []
    ∧ tokenize "   " = []
    ∧ (∀ tags : List String, TagExpression.evaluate "" tags = true)
    ∧ (∀ f : TaggedPackageFilter, f.filterByTags "" = f.tomlData) := by
  refine ⟨fun tags => rfl, rfl, by decide, fun tags => rfl, fun f => ?_⟩
  unfold TaggedPackageFilter.filterByTags
  exact List.filter_eq_self.mpr (fun p _ => rfl)

/-- Claim C5: a bare NOT token with no operand evaluates to true for every
tag list, and a token sequence of two or more tokens containing no operator
tokens and no parenthesis tokens evaluates to false; both malformed inputs
are silently coerced to a boolean by the evaluator rather than rejected. -/
theorem malformed_tokens_silently_coerced (tags : List Tag) :
    evaluateTokens ["NOT"] tags = true
    ∧ (∀ toks : List String, 2 ≤ toks.length → (∀ t ∈ toks, t ∉ opTokens) →
        evaluateTokens toks tags = false) := by
  constructor
  · rfl
  · intro toks hlen hops
    cases toks with
    | nil => simp at hlen
    | cons t0 ts =>
      cases ts with
      | nil => simp at hlen
      | cons t1 rest =>
        have hparen : splitParen (t0 :: t1 :: rest) = none :=
          splitParen_eq_none (fun hm => hops _ hm (by decide))
        have hor : splitFirstTok "OR" (t0 :: t1 :: rest) = none :=
          splitFirstTok_eq_none (fun hm => hops _ hm (by decide))
        have hand : splitFirstTok "AND" (t0 :: t1 :: rest) = none :=
          splitFirstTok_eq_none (fun hm => hops _ hm (by decide))
        have hnot : ¬(t0 = "NOT") := by
          rintro rfl
          exact hops "NOT" (List.mem_cons_self _ _) (by decide)
        simp [evaluateTokens, evalTokensAux, hparen, hor, hand, hnot]

/-- Claim C5 witness: the malformed-expression coercions at the concrete
token sequences, a bare NOT and the two leftover tokens x and y. -/
theorem malformed_tokens_silently_coerced_witness :
    evaluateTokens ["NOT"] [Tag.parse "x"] = true
    ∧ evaluateTokens ["x", "y"] [Tag.parse "x"] = false :=
  ⟨(malformed_tokens_silently_coerced [Tag.parse "x"]).1,
   (malformed_tokens_silently_coerced [Tag.parse "x"]).2 ["x", "y"]
     (by decide) (by decide)⟩

/-- Claim C8: the legacy-to-tags migration is idempotent — applying it twice
to any package entry yields the same entry, with the same tag list and no
duplicate accumulation, as applying it once. -/
theorem migratePackageToTags_idempotent (e : Entry) :
    migratePackageToTags (migratePackageToTags e) = migratePackageToTags e := by
  unfold migratePackageToTags
  by_cases h : e.tags.isSome
  · simp [h]
  · simp [h]

/-- Claim C9: tag parsing round-trips — for every well-formed tag string,
one with no colon at all or with a non-empty namespace before its first
colon, serializing the parsed tag returns the original string. -/
theorem tag_parse_roundtrip (s : String) (h : wellFormedTagString s = true) :
    Tag.toStr (Tag.parse s) = s := by
  unfold wellFormedTagString at h
  unfold Tag.parse
  cases hs : splitOnceColon s.data with
  | none => simp [Tag.toStr]
  | some pp =>
    obtain ⟨pre, post⟩ := pp
    rw [hs] at h
    simp at h
    have hl := splitOnceColon_eq hs
    have hne : String.mk pre ≠ "" := by
      intro hc
      exact h (by simpa using congrArg String.data hc)
    simp only [Tag.toStr, ne_eq, hne, not_false_eq_true, if_true]
    have : String.mk pre ++ ":" ++ String.mk post = String.mk (pre ++ ':' :: post) := by
      show String.mk ((pre ++ [':']) ++ post) = String.mk (pre ++ ':' :: post)
      simp
    rw [this, ← hl]

/-- Claim C9 witness: the round-trip at the concrete namespaced tag string
os colon macos. -/
theorem tag_parse_roundtrip_witness :
    wellFormedTagString "os:macos" = true
    ∧ Tag.toStr (Tag.parse "os:macos") = "os:macos" :=
  ⟨by decide, tag_parse_roundtrip "os:macos" (by decide)⟩

/-- Claim C6: filtering by a tag query is a pure subset operation — the
result is a sublist of the record list (no entry added, removed out of
order, or mutated), its size is at most the record count, every returned
record satisfies the query on its generated tag list, and every record
satisfying the query is returned. -/
theorem filterByTags_pure_subset (f : TaggedPackageFilter) (q : String) :
    (f.filterByTags q).Sublist f.tomlData
    ∧ (f.filterByTags q).length ≤ f.tomlData.length
    ∧ (∀ p ∈ f.filterByTags q,
        p ∈ f.tomlData ∧ TagExpression.evaluate q (getPackageTags p.2) = true)
    ∧ (∀ p ∈ f.tomlData, TagExpression.evaluate q (getPackageTags p.2) = true →
        p ∈ f.filterByTags q) := by
  refine ⟨List.filter_sublist _, List.length_filter_le _ _, ?_, ?_⟩
  · intro p hp
    exact List.mem_filter.mp hp
  · intro p hp hq
    exact List.mem_filter.mpr ⟨hp, hq⟩

/-- Claim C6 witness: on the concrete two-record map, the record satisfying
the query os macos and cat browser is in the filtered result, whose size is
bounded by the record count. -/
theorem filterByTags_pure_subset_witness :
    ("firefox", firefoxEntry) ∈ demoFilter.filterByTags "os:macos AND cat:browser"
    ∧ (demoFilter.filterByTags "os:macos AND cat:browser").length
        ≤ demoFilter.tomlData.length :=
  ⟨(filterByTags_pure_subset demoFilter "os:macos AND cat:browser").2.2.2
      ("firefox", firefoxEntry) (by decide) (by decide),
   (filterByTags_pure_subset demoFilter "os:macos AND cat:browser").2.1⟩

/-- Claim C3: tag matching holds exactly when the namespace-value pairs are
equal or both namespaces are pm and the colon-split segments of one value
are a prefix of the other's segments, in either direction; consequently the
general homebrew tag and its darwin-qualified form match both ways, the cat
hierarchy examples match in neither way, and a namespace-less tag never
matches a namespaced tag with the textually identical bare value. -/
theorem tag_matches_iff :
    (∀ a b : Tag, a.matches b = true ↔
      ((a.ns = b.ns ∧ a.value = b.value) ∨
        (a.ns = some "pm" ∧ b.ns = some "pm" ∧
          ((splitCols b.value.data).take (splitCols a.value.data).length
              = splitCols a.value.data ∨
            (splitCols a.value.data).take (splitCols b.value.data).length
              = splitCols b.value.data))))
    ∧ (Tag.parse "pm:homebrew").matches (Tag.parse "pm:homebrew:darwin") = true
    ∧ (Tag.parse "pm:homebrew:darwin").matches (Tag.parse "pm:homebrew") = true
    ∧ (Tag.parse "cat:development").matches (Tag.parse "cat:development:advanced") = false
    ∧ (Tag.parse "cat:development:advanced").matches (Tag.parse "cat:development") = false
    ∧ (∀ n v : String,
        (Tag.mk none v).matches (Tag.mk (some n) v) = false
        ∧ (Tag.mk (some n) v).matches (Tag.mk none v) = false) := by
  refine ⟨?_, by decide, by decide, by decide, by decide, ?_⟩
  · intro a b
    constructor
    · intro hm
      unfold Tag.matches at hm
      split_ifs at hm with h1 h2 h3 h4
      · exact Or.inl h1
      · exact Or.inr ⟨h2.1, h2.2, Or.inl (of_decide_eq_true hm)⟩
      · exact Or.inr ⟨h2.1, h2.2, Or.inr (of_decide_eq_true hm)⟩
    · intro hr
      unfold Tag.matches
      by_cases h1 : a.ns = b.ns ∧ a.value = b.value
      · rw [if_pos h1]
      · rw [if_neg h1]
        rcases hr with h1x | ⟨hpa, hpb, hpre⟩
        · exact absurd h1x h1
        · rw [if_pos ⟨hpa, hpb⟩]
          have hvne : splitCols a.value.data ≠ splitCols b.value.data := by
            intro hv
            exact h1 ⟨hpa.trans hpb.symm, String.ext (splitCols_inj hv)⟩
          rcases Nat.lt_trichotomy (splitCols a.value.data).length
              (splitCols b.value.data).length with hlt | heq | hgt
          · rw [if_pos hlt]
            rcases hpre with h | h
            · exact decide_eq_true h
            · exfalso
              rw [List.take_of_length_le (Nat.le_of_lt hlt)] at h
              have := congrArg List.length h
              omega
          · exfalso
            rcases hpre with h | h
            · rw [heq, List.take_length] at h
              exact hvne h.symm
            · rw [← heq, List.take_length] at h
              exact hvne h
          · rw [if_neg (by omega), if_pos hgt]
            rcases hpre with h | h
            · exfalso
              rw [List.take_of_length_le (Nat.le_of_lt hgt)] at h
              have := congrArg List.length h
              omega
            · exact decide_eq_true h
  · intro n v
    constructor <;> simp [Tag.matches]

/-- Claim C4: the evaluator gives OR strictly lower precedence than AND by
splitting at the first top-level OR before looking for AND: a token sequence
of the shape tag AND tag OR tag evaluates as the disjunction of the
conjunction of the first two tag tests with the third tag test, and on the
concrete expression the three test vectors of the spec come out true, true
and false. -/
theorem or_lower_precedence_than_and :
    (∀ (a b c : String) (tags : List Tag),
        a ∉ opTokens → b ∉ opTokens → c ∉ opTokens →
        evaluateTokens [a, "AND", b, "OR", c] tags =
          ((tags.any (fun t => t.matches (Tag.parse a))
              && tags.any (fun t => t.matches (Tag.parse b)))
            || tags.any (fun t => t.matches (Tag.parse c))))
    ∧ TagExpression.evaluate "A AND B OR C" ["A", "B"] = true
    ∧ TagExpression.evaluate "A AND B OR C" ["C"] = true
    ∧ TagExpression.evaluate "A AND B OR C" ["A"] = false := by
  refine ⟨?_, by decide, by decide, by decide⟩
  intro a b c tags ha hb hc
  have hap : ¬(a = "(") := by rintro rfl; exact ha (by decide)
  have hbp : ¬(b = "(") := by rintro rfl; exact hb (by decide)
  have hcp : ¬(c = "(") := by rintro rfl; exact hc (by decide)
  have han : ¬(a = "NOT") := by rintro rfl; exact ha (by decide)
  have hao : ¬(a = "OR") := by rintro rfl; exact ha (by decide)
  have hbo : ¬(b = "OR") := by rintro rfl; exact hb (by decide)
  have haa : ¬(a = "AND") := by rintro rfl; exact ha (by decide)
  have gAp : ¬(("AND" : String) = "(") := by decide
  have gOp : ¬(("OR" : String) = "(") := by decide
  have gAO : ¬(("AND" : String) = "OR") := by decide
  have hp1 : splitParen [a, "AND", b, "OR", c] = none := by
    simp [splitParen, hap, hbp, hcp, gAp, gOp]
  have hp2 : splitParen [a, "AND", b] = none := by
    simp [splitParen, hap, hbp, gAp]
  have hor1 : splitFirstTok "OR" [a, "AND", b, "OR", c] = some ([a, "AND", b], [c]) := by
    simp [splitFirstTok, hao, hbo, gAO]
  have hor2 : splitFirstTok "OR" [a, "AND", b] = none := by
    simp [splitFirstTok, hao, hbo, gAO]
  have hand2 : splitFirstTok "AND" [a, "AND", b] = some ([a], [b]) := by
    simp [splitFirstTok, haa]
  calc evaluateTokens [a, "AND", b, "OR", c] tags
      = evalTokensAux tags ([a, "AND", b, "OR", c].length + 1) [a, "AND", b, "OR", c] := rfl
    _ = ((tags.any (fun t => t.matches (Tag.parse a))
            && tags.any (fun t => t.matches (Tag.parse b)))
          || tags.any (fun t => t.matches (Tag.parse c))) := by
        simp only [evalTokensAux, hp1, hp2, hor1, hor2, hand2, List.length_cons,
          List.length_nil, han, if_false, ite_false]
        simp [evalTokensAux, han, hp1, hp2, hor1, hor2, hand2, ha, hb, hc]

/-- Claim C4 witness: the precedence shape applied at the concrete tokens x,
y and z with a tag list containing only x. -/
theorem or_lower_precedence_than_and_witness :
    evaluateTokens ["x", "AND", "y", "OR", "z"] [Tag.parse "x"]
      = (([Tag.parse "x"].any (fun t => t.matches (Tag.parse "x"))
            && [Tag.parse "x"].any (fun t => t.matches (Tag.parse "y")))
          || [Tag.parse "x"].any (fun t => t.matches (Tag.parse "z"))) :=
  or_lower_precedence_than_and.1 "x" "y" "z" [Tag.parse "x"]
    (by decide) (by decide) (by decide)

/-- Claim C7: the platform filter keeps a record exactly when the record is
in the map and it has at least one tag matching some platform os tag and at
least one tag matching some platform pm tag — two independent existential
checks, possibly satisfied by different tags of the record. -/
theorem filterByCurrentPlatform_iff (f : TaggedPackageFilter) (p : String × Entry) :
    p ∈ f.filterByCurrentPlatform ↔
      (p ∈ f.tomlData
        ∧ (∃ pt ∈ f.platformTags, "os:".data.isPrefixOf pt.data = true
            ∧ ∃ s ∈ getPackageTags p.2, (Tag.parse s).matches (Tag.parse pt) = true)
        ∧ (∃ pt ∈ f.platformTags, "pm:".data.isPrefixOf pt.data = true
            ∧ ∃ s ∈ getPackageTags p.2, (Tag.parse s).matches (Tag.parse pt) = true)) := by
  unfold TaggedPackageFilter.filterByCurrentPlatform
  rw [List.mem_filter]
  simp only [Bool.and_eq_true, List.any_eq_true, List.mem_map]
  constructor
  · rintro ⟨hm, ⟨⟨pt1, hpt1, hpre1, t1, ⟨s1, hs1, rfl⟩, hm1⟩,
      ⟨pt2, hpt2, hpre2, t2, ⟨s2, hs2, rfl⟩, hm2⟩⟩⟩
    exact ⟨hm, ⟨pt1, hpt1, hpre1, s1, hs1, hm1⟩, ⟨pt2, hpt2, hpre2, s2, hs2, hm2⟩⟩
  · rintro ⟨hm, ⟨pt1, hpt1, hpre1, s1, hs1, hm1⟩, ⟨pt2, hpt2, hpre2, s2, hs2, hm2⟩⟩
    exact ⟨hm, ⟨pt1, hpt1, hpre1, Tag.parse s1, ⟨s1, hs1, rfl⟩, hm1⟩,
      ⟨pt2, hpt2, hpre2, Tag.parse s2, ⟨s2, hs2, rfl⟩, hm2⟩⟩

/-- Claim C1 counterexample: on tagless records the tag list returned by
get-package-tags does not follow the spec's legacy table.  A record with
only the cask flag and a custom install gets the empty tag list instead of
the cask and custom rows of the table, and a record with only darwin
homebrew support gets the general homebrew tag in addition to the two tags
of its table row; the full table, cask and custom rows and the both-flags
collapse included, is implemented by the migration function instead. -/
theorem getPackageTags_table_counterexample :
    getPackageTags { brewIsCask := true, customInstall := true } = []
    ∧ ¬("cat:cask" ∈ getPackageTags { brewIsCask := true, customInstall := true })
    ∧ getPackageTags { brewSupportsDarwin := true }
        = ["os:macos", "pm:homebrew", "pm:homebrew:darwin"]
    ∧ (migratePackageToTags { brewIsCask := true, customInstall := true }).tags
        = some ["cat:cask", "pm:custom"] := by
  decide

/-- Claim C1 amended: a record with non-empty stored tags has them returned
verbatim; a record with absent or empty stored tags gets exactly the legacy
tag generator's output, which is unchanged by the cask and custom-install
fields; and the spec's table, with its homebrew collapse, cask and custom
rows, is what the migration function stores, deduplicated preserving
first-seen order (stated for entries whose fields outside the claim's table
are at their defaults). -/
theorem getPackageTags_amended :
    (∀ (e : Entry) (l : List String), e.tags = some l → l ≠ [] → getPackageTags e = l)
    ∧ (∀ e : Entry, e.tags = none ∨ e.tags = some [] →
        getPackageTags e = generateLegacyTags e)
    ∧ (∀ e : Entry,
        generateLegacyTags { e with brewIsCask := true, customInstall := true }
          = generateLegacyTags e)
    ∧ (∀ e : Entry, e.tags = none → e.archIsAur = false → e.preferFlatpak = false →
        e.priority = "" → e.customInstallPriority = "" →
        (migratePackageToTags e).tags = some (dedupPreserve (specTableTags e))) := by
  refine ⟨?_, ?_, ?_, ?_⟩
  · intro e l h hne
    unfold getPackageTags
    rw [h]
    simp [hne]
  · intro e h
    unfold getPackageTags
    rcases h with h | h <;> rw [h] <;> simp
  · intro e
    rfl
  · intro e h0 h1 h2 h3 h4
    have p1 : ¬(lowerStr "" = "override") := by decide
    have p2 : ¬(lowerStr "" = "flatpak") := by decide
    have p3 : ¬(lowerStr "" = "always") := by decide
    have p4 : ¬(lowerStr "" = "fallback") := by decide
    unfold migratePackageToTags specTableTags
    rw [h0, h1, h2, h3, h4]
    cases hbd : e.brewSupportsDarwin <;> cases hbl : e.brewSupportsLinux <;>
      simp [hbd, hbl, p1, p2, p3, p4]

/-- Claim C1 amended witness: the verbatim branch on a record with one
stored tag, and the migration-follows-the-table branch on a record with an
arch package name. -/
theorem getPackageTags_amended_witness :
    getPackageTags { tags := some ["cat:development"] } = ["cat:development"]
    ∧ (migratePackageToTags { archPkg := "paru" }).tags
        = some (dedupPreserve (specTableTags { archPkg := "paru" })) :=
  ⟨getPackageTags_amended.1 { tags := some ["cat:development"] } ["cat:development"]
      rfl (by decide),
   getPackageTags_amended.2.2.2 { archPkg := "paru" } rfl rfl rfl rfl rfl⟩

/-- Claim C2 counterexample: for the version-qualified target python-3.11
and two non-vulnerable candidates with base name python at parsed versions
3.10 (below the requested version) and 3.20 (above it), the selector
returns the 3.10 candidate: version distance is its primary key and the
at-or-above preference only breaks distance ties, so a strictly closer
older version beats a farther newer one, contradicting the claim that a
below-version candidate is never selected while a non-vulnerable
at-or-above candidate exists. -/
theorem selectBest_downgrade_counterexample :
    selectBestPackageName "python-3.11"
      [{ name := "python-3.10", version := "3.10" },
       { name := "python-3.20", version := "3.20" }] = some "python-3.10"
    ∧ parseVersion "python-3.11" = ("python", [3, 11])
    ∧ parseVersion "python-3.10" = ("python", [3, 10])
    ∧ parseVersion "python-3.20" = ("python", [3, 20])
    ∧ verGe [3, 10] [3, 11] = false
    ∧ verGe [3, 20] [3, 11] = true
    ∧ isVulnerableVersion "python-3.20" "3.20" = false := by
  decide

/-- Claim C2 amended: among same-base-name candidates the selector chooses
primarily by closest version distance to the requested version, preferring
at-or-above versions only among equal distances and non-git names among
equal scores; in the spec's scenario with candidates at versions 3.10, 3.11
and 3.12 the exact-distance 3.11 candidate is selected (never 3.10) when
the target is written in the hyphenated form the version parser recognizes,
while the at-sign form python@3.11 is not parsed as version-qualified and
falls back to the top-scored candidate, which is the 3.12 one here — still
never the 3.10 one. -/
theorem selectBest_closest_version_amended :
    selectBestPackageName "python-3.11"
      [{ name := "python3.10", version := "3.10" },
       { name := "python3.11", version := "3.11" },
       { name := "python3.12", version := "3.12" }] = some "python3.11"
    ∧ selectBestPackageName "python@3.11"
      [{ name := "python3.10", version := "3.10" },
       { name := "python3.11", version := "3.11" },
       { name := "python3.12", version := "3.12" }] = some "python3.12"
    ∧ parseVersion "python@3.11" = ("python@3.11", []) := by
  decide

end Dotfiles

